import Mathlib

/-!
Shallow embedding of the SurveyEarn payment settlement and ledger subsystem:
the M-Pesa callback handler (`accounts/views.py:mpesa_callback`), the referral
commission service (`accounts/services/referral_service.py`), the withdrawal
service (`payments/services.py`) and the phone-number normalisation helper
(`payments/mpesa.py`).  Monetary amounts (Python `Decimal`) are modelled as
rationals; database rows are modelled as Lean structures, the database as an
explicit state record threaded through every operation; a raised `ValueError`
(rolling back the enclosing transaction) is modelled as `Except.error`.
-/

/-! ## Phone number normalisation (`payments/mpesa.py`, `MPesaService.format_phone_number`) -/

namespace MPesaService

/-- `phone_number.replace(' ', '').replace('-', '').replace('+', '')`:
removing every occurrence of three distinct single characters in sequence. -/
def clean (s : List Char) : List Char :=
  ((s.filter (fun c => c ≠ ' ')).filter (fun c => c ≠ '-')).filter (fun c => c ≠ '+')

/-- `phone_number.startswith('254')`. -/
def startsWith254 (l : List Char) : Bool :=
  match l with
  | a :: b :: c :: _ => a == '2' && b == '5' && c == '4'
  | _ => false

/-- `MPesaService.format_phone_number`, on the character list of the input:
strip spaces, dashes and plus signs, then convert to the 254-prefixed form
exactly as the Python branch chain does. -/
def format_phone_number (s : List Char) : List Char :=
  let p := clean s
  if p.head? = some '0' then '2' :: '5' :: '4' :: p.tail
  else if p.head? = some '7' ∨ p.head? = some '1' then '2' :: '5' :: '4' :: p
  else if startsWith254 p = false then '2' :: '5' :: '4' :: p
  else p

theorem clean_idem (s : List Char) : clean (clean s) = clean s := by
  simp only [clean, List.filter_filter]
  apply List.filter_congr
  intro c _
  by_cases h1 : c = ' ' <;> by_cases h2 : c = '-' <;> by_cases h3 : c = '+' <;>
    simp [h1, h2, h3]

theorem clean_cons (c : Char) (s : List Char)
    (h1 : c ≠ ' ') (h2 : c ≠ '-') (h3 : c ≠ '+') :
    clean (c :: s) = c :: clean s := by
  simp [clean, h1, h2, h3]

theorem clean_cons_bad (c : Char) (s : List Char)
    (h : c = ' ' ∨ c = '-' ∨ c = '+') : clean (c :: s) = clean s := by
  rcases h with h | h | h <;> simp [clean, h]

theorem clean_length_le (s : List Char) : (clean s).length ≤ s.length := by
  simp only [clean]
  exact le_trans (List.length_filter_le _ _)
    (le_trans (List.length_filter_le _ _) (List.length_filter_le _ _))

/-- If `a :: t` is a fixed point of `clean` then so is `t`. -/
theorem clean_fixed_tail {a : Char} {t : List Char}
    (h : clean (a :: t) = a :: t) : clean t = t := by
  by_cases hbad : a = ' ' ∨ a = '-' ∨ a = '+'
  · exfalso
    rw [clean_cons_bad a t hbad] at h
    have := clean_length_le t
    have := congrArg List.length h
    simp at this
    omega
  · push_neg at hbad
    rw [clean_cons a t hbad.1 hbad.2.1 hbad.2.2] at h
    exact (List.cons.injEq _ _ _ _ ▸ h).2

theorem startsWith254_shape {l : List Char} (h : startsWith254 l = true) :
    ∃ t, l = '2' :: '5' :: '4' :: t := by
  rcases l with _ | ⟨a, _ | ⟨b, _ | ⟨c, t⟩⟩⟩ <;> simp [startsWith254] at h
  obtain ⟨⟨ha, hb⟩, hc⟩ := h
  exact ⟨t, by simp [ha, hb, hc]⟩

/-- Every output of `format_phone_number` has the form `'2' :: '5' :: '4' :: r`
with `'2' :: '5' :: '4' :: r` a fixed point of `clean`. -/
theorem format_phone_number_shape (s : List Char) :
    ∃ r, format_phone_number s = '2' :: '5' :: '4' :: r ∧
      clean ('2' :: '5' :: '4' :: r) = '2' :: '5' :: '4' :: r := by
  have hdigit : ∀ r, clean r = r →
      clean ('2' :: '5' :: '4' :: r) = '2' :: '5' :: '4' :: r := by
    intro r hr
    rw [clean_cons _ _ (by decide) (by decide) (by decide),
        clean_cons _ _ (by decide) (by decide) (by decide),
        clean_cons _ _ (by decide) (by decide) (by decide), hr]
  unfold format_phone_number
  by_cases h0 : (clean s).head? = some '0'
  · cases hs : clean s with
    | nil => rw [hs] at h0; simp at h0
    | cons a t =>
      have hfix : clean (a :: t) = a :: t := by rw [← hs]; exact clean_idem s
      have ha : a = '0' := by rw [hs] at h0; simpa using h0
      refine ⟨t, by simp [hs, ha], hdigit t (clean_fixed_tail hfix)⟩
  · by_cases h71 : (clean s).head? = some '7' ∨ (clean s).head? = some '1'
    · exact ⟨clean s, by simp [h0, h71], hdigit _ (clean_idem s)⟩
    · by_cases h254 : startsWith254 (clean s) = false
      · exact ⟨clean s, by simp [h0, h71, h254], hdigit _ (clean_idem s)⟩
      · obtain ⟨t, ht⟩ := startsWith254_shape (Bool.of_not_eq_false h254)
        have hfix : clean ('2' :: '5' :: '4' :: t) = '2' :: '5' :: '4' :: t := by
          rw [← ht]; exact clean_idem s
        exact ⟨t, by simp [ht, startsWith254], hfix⟩

/-- C10: phone-number normalisation is idempotent — normalising an
already-normalised number never changes it. -/
theorem format_phone_number_idem (s : List Char) :
    format_phone_number (format_phone_number s) = format_phone_number s := by
  obtain ⟨r, hr, hclean⟩ := format_phone_number_shape s
  rw [hr]
  unfold format_phone_number
  simp only [hclean]
  simp [startsWith254]

end MPesaService

/-! ## Data model (`payments/models.py`, `accounts/models.py`) -/

/-- `Transaction.TRANSACTION_TYPES` plus the two extra type strings the
services actually write (`referral_commission` in
`ReferralService.process_pending_commissions`, `correction` in
`ReferralService.reverse_admin_commissions`). -/
inductive TxnType
  | registration
  | survey_payment
  | withdrawal
  | adjustment
  | bonus
  | refund
  | fee
  | referral_commission
  | correction
  deriving DecidableEq, Repr

/-- `Transaction.STATUS_CHOICES`. -/
inductive TxnStatus
  | pending
  | processing
  | completed
  | failed
  | cancelled
  deriving DecidableEq, Repr

/-- One row of `payments.models.Transaction` (the ledger-entry table).
`balance_before` and `balance_after` default to 0 in the Django model;
call sites that omit them get that default. -/
structure Txn where
  user : Nat
  txnType : TxnType
  amount : ℚ
  status : TxnStatus
  balance_before : ℚ := 0
  balance_after : ℚ := 0
  reference_id : Option String := none
  deriving DecidableEq, Repr

/-- `WithdrawalRequest.STATUS_CHOICES`. -/
inductive WStatus
  | pending
  | approved
  | rejected
  | processing
  | completed
  | failed
  deriving DecidableEq, Repr

/-- One row of `payments.models.WithdrawalRequest` (fields the settlement
logic reads). -/
structure Withdrawal where
  user : Nat
  amount : ℚ
  withdrawal_fee : ℚ
  net_amount : ℚ
  status : WStatus
  deriving DecidableEq, Repr

/-- `ReferralCommission.commission_type` choices. -/
inductive CommType
  | registration
  | survey
  deriving DecidableEq, Repr

/-- One row of `accounts.models.ReferralCommission`. -/
structure Commission where
  referrer : Nat
  referred_user : Nat
  commission_amount : ℚ
  commission_type : CommType
  source_amount : ℚ
  processed : Bool
  deriving DecidableEq, Repr

/-- The fields of `accounts.models.User` the settlement subsystem touches. -/
structure UserAccount where
  balance : ℚ
  total_earnings : ℚ
  referral_earnings : ℚ
  registration_paid : Bool
  is_active : Bool
  is_staff : Bool
  is_superuser : Bool
  referred_by : Option Nat
  registration_amount : ℚ
  mpesa_checkout_request_id : Option String
  deriving DecidableEq, Repr

/-- The database state threaded through every operation: the user table
(`users` indexed by primary key, `user_ids` the finite set of existing rows,
in insertion order), the transaction, commission and withdrawal-request
tables, and the runtime-configurable settings read through
`SettingsService`.  `txns` and `commissions` are kept in creation order
(new rows appended at the end); `next_wid` is the next withdrawal primary
key. -/
structure St where
  users : Nat → UserAccount
  user_ids : List Nat
  txns : List Txn
  commissions : List Commission
  withdrawals : Nat → Option Withdrawal
  next_wid : Nat
  registration_fee : ℚ
  commission_rate : ℚ
  auto_approve : Bool

/-- Write back one user row. -/
def St.setUser (s : St) (i : Nat) (u : UserAccount) : St :=
  { s with users := fun j => if j = i then u else s.users j }

/-- Write back one withdrawal row. -/
def St.setWithdrawal (s : St) (i : Nat) (w : Withdrawal) : St :=
  { s with withdrawals := fun j => if j = i then some w else s.withdrawals j }

theorem St.setUser_users_self (s : St) (i : Nat) (u : UserAccount) :
    (s.setUser i u).users i = u := by simp [St.setUser]

theorem St.setUser_users_other (s : St) (i j : Nat) (u : UserAccount)
    (h : j ≠ i) : (s.setUser i u).users j = s.users j := by
  simp [St.setUser, h]

/-! ## Withdrawal service (`payments/services.py`, `WithdrawalService`) -/

namespace WithdrawalService

def MIN_WITHDRAWAL : ℚ := 30
def MAX_WITHDRAWAL : ℚ := 50000
def WITHDRAWAL_FEE_PERCENTAGE : ℚ := 2 / 100
def MIN_WITHDRAWAL_FEE : ℚ := 1

/-- `WithdrawalRequest.can_be_processed` (the second definition in the class
body, which overrides the first): balance check only. -/
def can_be_processed (s : St) (w : Withdrawal) : Prop :=
  (s.users w.user).balance ≥ w.amount

instance (s : St) (w : Withdrawal) : Decidable (can_be_processed s w) := by
  unfold can_be_processed; infer_instance

/-- `WithdrawalService.create_withdrawal_request`: validate bounds and
balance, then persist a pending request.  A raised `ValueError` is
`Except.error`. -/
def create_withdrawal_request (s : St) (uid : Nat) (amount : ℚ) :
    Except String St :=
  if amount < MIN_WITHDRAWAL then
    .error "Minimum withdrawal amount is KSh 30.00"
  else if amount > MAX_WITHDRAWAL then
    .error "Maximum withdrawal amount is KSh 50000.00"
  else if (s.users uid).balance < amount then
    .error "Insufficient balance"
  else
    let fee := max (amount * WITHDRAWAL_FEE_PERCENTAGE) MIN_WITHDRAWAL_FEE
    if (s.users uid).balance < amount + fee then
      .error "Insufficient balance including fee"
    else
      .ok { s with
        withdrawals := fun j =>
          if j = s.next_wid then
            some { user := uid, amount := amount, withdrawal_fee := fee,
                   net_amount := amount - fee, status := .pending }
          else s.withdrawals j,
        next_wid := s.next_wid + 1 }

/-- `WithdrawalService.approve_withdrawal`: only from pending, re-check the
balance, debit the reserved amount and append the withdrawal ledger entry. -/
def approve_withdrawal (s : St) (wid : Nat) : Except String St :=
  match s.withdrawals wid with
  | none => .error "WithdrawalRequest matching query does not exist"
  | some w =>
    if w.status ≠ .pending then
      .error "Only pending withdrawals can be approved"
    else if ¬ can_be_processed s w then
      .error "Withdrawal cannot be processed - insufficient balance"
    else
      let u := s.users w.user
      let u1 := { u with balance := u.balance - w.amount }
      let s1 := (s.setUser w.user u1).setWithdrawal wid { w with status := .approved }
      .ok { s1 with txns := s1.txns ++
        [{ user := w.user, txnType := .withdrawal, amount := -w.amount,
           status := .pending, balance_before := u.balance,
           balance_after := u1.balance }] }

/-- `WithdrawalService.reject_withdrawal`: only from pending; no balance
effect. -/
def reject_withdrawal (s : St) (wid : Nat) : Except String St :=
  match s.withdrawals wid with
  | none => .error "WithdrawalRequest matching query does not exist"
  | some w =>
    if w.status ≠ .pending then
      .error "Only pending withdrawals can be rejected"
    else
      .ok (s.setWithdrawal wid { w with status := .rejected })

/-- The filter used by `mark_as_processing`, `complete_withdrawal` and
`fail_withdrawal` to find the withdrawal's ledger entries:
`Transaction.objects.filter(user=.., transaction_type='withdrawal',
amount=-w.amount, status in ..)`. -/
def matchesWithdrawalTxn (w : Withdrawal) (sts : List TxnStatus) (t : Txn) : Prop :=
  t.user = w.user ∧ t.txnType = .withdrawal ∧ t.amount = -w.amount ∧ t.status ∈ sts

instance (w : Withdrawal) (sts : List TxnStatus) (t : Txn) :
    Decidable (matchesWithdrawalTxn w sts t) := by
  unfold matchesWithdrawalTxn; infer_instance

/-- `WithdrawalService.mark_as_processing`: only from approved. -/
def mark_as_processing (s : St) (wid : Nat) : Except String St :=
  match s.withdrawals wid with
  | none => .error "WithdrawalRequest matching query does not exist"
  | some w =>
    if w.status ≠ .approved then
      .error "Only approved withdrawals can be marked as processing"
    else
      let s1 := s.setWithdrawal wid { w with status := .processing }
      .ok { s1 with txns := s1.txns.map fun t =>
        if matchesWithdrawalTxn w [.pending] t then { t with status := .processing } else t }

/-- `WithdrawalService.complete_withdrawal`: only from approved or
processing. -/
def complete_withdrawal (s : St) (wid : Nat) : Except String St :=
  match s.withdrawals wid with
  | none => .error "WithdrawalRequest matching query does not exist"
  | some w =>
    if w.status ≠ .approved ∧ w.status ≠ .processing then
      .error "Only approved or processing withdrawals can be completed"
    else
      let s1 := s.setWithdrawal wid { w with status := .completed }
      .ok { s1 with txns := s1.txns.map fun t =>
        if matchesWithdrawalTxn w [.pending, .processing] t then { t with status := .completed } else t }

/-- `WithdrawalService.fail_withdrawal`: only from approved or processing;
restore the balance, mark the withdrawal ledger entries failed and append a
`refund` reversal entry. -/
def fail_withdrawal (s : St) (wid : Nat) : Except String St :=
  match s.withdrawals wid with
  | none => .error "WithdrawalRequest matching query does not exist"
  | some w =>
    if w.status ≠ .approved ∧ w.status ≠ .processing then
      .error "Only approved or processing withdrawals can be failed"
    else
      let u := s.users w.user
      let u1 := { u with balance := u.balance + w.amount }
      let s1 := (s.setUser w.user u1).setWithdrawal wid { w with status := .failed }
      let txns1 := s1.txns.map fun t =>
        if matchesWithdrawalTxn w [.pending, .processing] t then { t with status := .failed } else t
      .ok { s1 with txns := txns1 ++
        [{ user := w.user, txnType := .refund, amount := w.amount,
           status := .completed, balance_before := u.balance,
           balance_after := u1.balance }] }

end WithdrawalService

/-! ## Referral service (`accounts/services/referral_service.py`, `ReferralService`) -/

namespace ReferralService

/-- The duplicate check in `ReferralService.create_registration_commission`
and in the callback:
`ReferralCommission.objects.filter(referrer=.., referred_user=..,
commission_type='registration')`. -/
def isRegCommissionFor (r uid : Nat) (c : Commission) : Bool :=
  c.referrer == r && c.referred_user == uid && c.commission_type == .registration

/-- `ReferralService.create_registration_commission`: skip if no referrer or
a staff/superuser referrer; compute `registration_fee * commission_rate`
(Python's `user.registration_amount or get_registration_fee()` falls back on
a zero — falsy — stored amount); return the existing commission unchanged if
one already exists for (referrer, referred_user, 'registration'); otherwise
create it unprocessed and add the amount to the referrer's
`referral_earnings`. -/
def create_registration_commission (s : St) (uid : Nat) :
    Option Commission × St :=
  let u := s.users uid
  match u.referred_by with
  | none => (none, s)
  | some r =>
    if (s.users r).is_staff ∨ (s.users r).is_superuser then (none, s)
    else
      let registration_fee :=
        if u.registration_amount = 0 then s.registration_fee else u.registration_amount
      let commission_amount := registration_fee * s.commission_rate
      match s.commissions.find? (isRegCommissionFor r uid) with
      | some existing => (some existing, s)
      | none =>
        let c : Commission :=
          { referrer := r, referred_user := uid,
            commission_amount := commission_amount,
            commission_type := .registration,
            source_amount := registration_fee, processed := false }
        let ref := s.users r
        let s1 := s.setUser r { ref with referral_earnings := ref.referral_earnings + commission_amount }
        (some c, { s1 with commissions := s1.commissions ++ [c] })

/-- `ReferralService.create_survey_commission`: same staff exclusion, no
duplicate check, commission type `survey`. -/
def create_survey_commission (s : St) (uid : Nat) (survey_payout : ℚ) :
    Option Commission × St :=
  let u := s.users uid
  match u.referred_by with
  | none => (none, s)
  | some r =>
    if (s.users r).is_staff ∨ (s.users r).is_superuser then (none, s)
    else
      let commission_amount := survey_payout * s.commission_rate
      let c : Commission :=
        { referrer := r, referred_user := uid,
          commission_amount := commission_amount,
          commission_type := .survey,
          source_amount := survey_payout, processed := false }
      let ref := s.users r
      let s1 := s.setUser r { ref with referral_earnings := ref.referral_earnings + commission_amount }
      (some c, { s1 with commissions := s1.commissions ++ [c] })

/-- The loop body of `ReferralService.process_pending_commissions`: credit
the referrer's balance and `total_earnings`, mark the commission processed
and append the `referral_commission` ledger entry (whose `balance_before`
is never passed, so it takes the model default 0). -/
def settle_one (s : St) (i : Nat) : St :=
  match s.commissions[i]? with
  | none => s
  | some c =>
    let ref := s.users c.referrer
    let ref1 := { ref with balance := ref.balance + c.commission_amount,
                           total_earnings := ref.total_earnings + c.commission_amount }
    let s1 := s.setUser c.referrer ref1
    { s1 with
      commissions := s1.commissions.set i { c with processed := true },
      txns := s1.txns ++
        [{ user := c.referrer, txnType := .referral_commission,
           amount := c.commission_amount, status := .pending,
           balance_after := ref1.balance }] }

/-- The queryset of `process_pending_commissions` as a snapshot of row
indices, in the model's creation order reversed (the table's
`ordering = ['-created_at']`). -/
def pendingIdxs (s : St) (referrer_user : Option Nat) : List Nat :=
  ((List.range s.commissions.length).filter fun i =>
    match s.commissions[i]? with
    | some c => !c.processed && (referrer_user.all fun r => c.referrer == r)
    | none => false).reverse

/-- `ReferralService.process_pending_commissions`: settle every unprocessed
commission (optionally restricted to one referrer), returning
`(processed_count, total_amount)` and the new state. -/
def process_pending_commissions (s : St) (referrer_user : Option Nat) :
    (Nat × ℚ) × St :=
  (pendingIdxs s referrer_user).foldl
    (fun acc i =>
      match acc.2.commissions[i]? with
      | some c => ((acc.1.1 + 1, acc.1.2 + c.commission_amount), settle_one acc.2 i)
      | none => acc)
    ((0, 0), s)

/-- The loop body of `ReferralService.reverse_admin_commissions` in the
non-dry-run branch: debit the referrer (no balance-floor check), mark the
commission unprocessed and append a `correction` ledger entry (again with
the default `balance_before` of 0). -/
def reverse_one (s : St) (i : Nat) : St :=
  match s.commissions[i]? with
  | none => s
  | some c =>
    let ref := s.users c.referrer
    let ref1 := { ref with balance := ref.balance - c.commission_amount,
                           total_earnings := ref.total_earnings - c.commission_amount,
                           referral_earnings := ref.referral_earnings - c.commission_amount }
    let s1 := s.setUser c.referrer ref1
    { s1 with
      commissions := s1.commissions.set i { c with processed := false },
      txns := s1.txns ++
        [{ user := c.referrer, txnType := .correction,
           amount := -c.commission_amount, status := .pending,
           balance_after := ref1.balance }] }

/-- The queryset of `reverse_admin_commissions`: processed commissions whose
referrer is staff or superuser. -/
def adminProcessedIdxs (s : St) : List Nat :=
  ((List.range s.commissions.length).filter fun i =>
    match s.commissions[i]? with
    | some c => ((s.users c.referrer).is_staff || (s.users c.referrer).is_superuser)
                  && c.processed
    | none => false).reverse

/-- `ReferralService.reverse_admin_commissions`: with `dry_run` no state
change; otherwise reverse every processed staff/superuser commission. -/
def reverse_admin_commissions (s : St) (dry_run : Bool) : ℚ × St :=
  let idxs := adminProcessedIdxs s
  if dry_run then
    (idxs.foldl (fun acc i =>
      match s.commissions[i]? with
      | some c => acc + c.commission_amount
      | none => acc) 0, s)
  else
    idxs.foldl
      (fun acc i =>
        match acc.2.commissions[i]? with
        | some c => (acc.1 + c.commission_amount, reverse_one acc.2 i)
        | none => acc)
      (0, s)

end ReferralService

/-! ## Registration payment callback (`accounts/views.py`, `mpesa_callback`) -/

/-- The parse of one inbound callback request body: `malformed` for a
`json.JSONDecodeError`, otherwise the fields the handler extracts
(`Body.stkCallback.CheckoutRequestID`, `.ResultCode`, and the `Amount`
callback-metadata item). -/
inductive Payload
  | malformed
  | parsed (checkout_request_id : Option String) (result_code : Option Int)
           (amount : Option ℚ)
  deriving DecidableEq, Repr

/-- A `JsonResponse` of the handler: every return site uses the default
HTTP status 200 and a body `{ResultCode, ResultDesc}`. -/
structure CallbackResponse where
  http_status : Nat
  result_code : Int
  result_desc : String
  deriving DecidableEq, Repr

/-- The filter `Transaction.objects.get(user=.., transaction_type=
'registration', reference_id=checkout_request_id, status='pending')`. -/
def isPendingRegTxn (uid : Nat) (cid : String) (t : Txn) : Bool :=
  t.user == uid && t.txnType == .registration
    && t.reference_id == some cid && t.status == .pending

/-- The registration-transaction step of the success branch: update the
pending registration transaction to completed when exactly one matches,
create a fresh completed one with zero balance fields when none is left
(the `Transaction.DoesNotExist` fallback), and do nothing when several
match (`MultipleObjectsReturned` is only logged). -/
def complete_reg_txn (s : St) (uid : Nat) (cid : String)
    (registration_amount : ℚ) : St :=
  let n := (s.txns.filter (isPendingRegTxn uid cid)).length
  if n = 1 then
    { s with txns := s.txns.map fun t =>
        if isPendingRegTxn uid cid t then { t with status := .completed } else t }
  else if n = 0 then
    { s with txns := s.txns ++
        [{ user := uid, txnType := .registration, amount := registration_amount,
           status := .completed, balance_before := 0, balance_after := 0,
           reference_id := some cid }] }
  else s

/-- The success branch of `mpesa_callback` from the point where the user has
been found, inside `transaction.atomic()`: update the user row, run the
registration-transaction step, then run the commission block with its
duplicate and staff checks. -/
def mpesa_callback_success (s : St) (uid : Nat) (cid : String)
    (amount : Option ℚ) : St :=
  let u := s.users uid
  let expected_fee := s.registration_fee
  let amountEff : Option ℚ :=
    match amount with
    | some a => if a = 0 then none else some a
    | none => none
  let u1 := { u with registration_paid := true, is_active := true,
                     registration_amount := amountEff.getD u.registration_amount }
  let s1 := s.setUser uid u1
  let registration_amount :=
    amountEff.getD (if u.registration_amount = 0 then expected_fee else u.registration_amount)
  let s2 := complete_reg_txn s1 uid cid registration_amount
  match u.referred_by with
  | none => s2
  | some r =>
    if (s2.users r).is_staff || (s2.users r).is_superuser then s2
    else
      match s2.commissions.find? (ReferralService.isRegCommissionFor r uid) with
      | some _ => s2
      | none =>
        let res := ReferralService.create_registration_commission s2 uid
        match res.1 with
        | some _ =>
          if s.auto_approve then
            (ReferralService.process_pending_commissions res.2 (some r)).2
          else res.2
        | none => res.2

/-- The failure branch of `mpesa_callback` (result code missing or nonzero):
mark the pending registration transaction failed if exactly one matches. -/
def mpesa_callback_failure (s : St) (uid : Nat) (cid : String) : St :=
  let n := (s.txns.filter (isPendingRegTxn uid cid)).length
  if n = 1 then
    { s with txns := s.txns.map fun t =>
        if isPendingRegTxn uid cid t then { t with status := .failed } else t }
  else s

/-- `mpesa_callback`: parse, extract the checkout request id, look up the
user by `mpesa_checkout_request_id`, branch on the result code, and always
answer with an HTTP 200 `JsonResponse` — `ResultCode` 1 for malformed JSON
or a missing id (or a `MultipleObjectsReturned` falling to the generic
exception handler), `ResultCode` 0 otherwise. -/
def mpesa_callback (s : St) (p : Payload) : CallbackResponse × St :=
  match p with
  | .malformed => (⟨200, 1, "Invalid JSON"⟩, s)
  | .parsed checkout_request_id result_code amount =>
    match checkout_request_id with
    | none => (⟨200, 1, "Missing CheckoutRequestID"⟩, s)
    | some cid =>
      if cid = "" then (⟨200, 1, "Missing CheckoutRequestID"⟩, s)
      else
        match s.user_ids.filter
            (fun i => (s.users i).mpesa_checkout_request_id == some cid) with
        | [] => (⟨200, 0, "Accepted"⟩, s)
        | [uid] =>
          if result_code = some 0 then
            (⟨200, 0, "Accepted"⟩, mpesa_callback_success s uid cid amount)
          else
            (⟨200, 0, "Accepted"⟩, mpesa_callback_failure s uid cid)
        | _ => (⟨200, 1, "Processing error"⟩, s)

/-! ## The subsystem's operations as a single step type -/

/-- One invocation of a subsystem operation.  Operations that raise
(`ValueError`) roll back the enclosing database transaction, so a failed
invocation leaves the state unchanged. -/
inductive Op
  | createWithdrawal (uid : Nat) (amount : ℚ)
  | approveWithdrawal (wid : Nat)
  | rejectWithdrawal (wid : Nat)
  | markProcessing (wid : Nat)
  | completeWithdrawal (wid : Nat)
  | failWithdrawal (wid : Nat)
  | createRegCommission (uid : Nat)
  | createSurveyCommission (uid : Nat) (payout : ℚ)
  | settleCommissions (referrer : Option Nat)
  | reverseAdminCommissions (dry : Bool)
  | callback (p : Payload)

/-- Run one operation, collapsing a raised error to the unchanged state. -/
def applyOp (s : St) : Op → St
  | .createWithdrawal uid amount =>
      (WithdrawalService.create_withdrawal_request s uid amount).toOption.getD s
  | .approveWithdrawal wid => (WithdrawalService.approve_withdrawal s wid).toOption.getD s
  | .rejectWithdrawal wid => (WithdrawalService.reject_withdrawal s wid).toOption.getD s
  | .markProcessing wid => (WithdrawalService.mark_as_processing s wid).toOption.getD s
  | .completeWithdrawal wid => (WithdrawalService.complete_withdrawal s wid).toOption.getD s
  | .failWithdrawal wid => (WithdrawalService.fail_withdrawal s wid).toOption.getD s
  | .createRegCommission uid => (ReferralService.create_registration_commission s uid).2
  | .createSurveyCommission uid payout =>
      (ReferralService.create_survey_commission s uid payout).2
  | .settleCommissions referrer => (ReferralService.process_pending_commissions s referrer).2
  | .reverseAdminCommissions dry => (ReferralService.reverse_admin_commissions s dry).2
  | .callback p => (mpesa_callback s p).2

/-- Run a sequence of operations. -/
def applyOps (s : St) (ops : List Op) : St := ops.foldl applyOp s

/-- Sum of the ledger amounts recorded for one account, in creation order. -/
def ledgerSum (s : St) (uid : Nat) : ℚ :=
  ((s.txns.filter fun t => t.user == uid).map Txn.amount).sum

/-! ## Registration-commission uniqueness invariant (claim C5) -/

/-- The identity a registration-kind commission row carries:
`(referrer, referred_user)`; `none` for survey commissions. -/
def regKey (c : Commission) : Option (Nat × Nat) :=
  if c.commission_type = .registration then some (c.referrer, c.referred_user) else none

/-- At most one registration-kind commission per (referrer, referred) pair. -/
def RegUnique (l : List Commission) : Prop :=
  (l.map regKey).Pairwise fun x y => x = none ∨ x ≠ y

def decPairwiseKeys :
    (l : List (Option (Nat × Nat))) →
      Decidable (l.Pairwise fun x y => x = none ∨ x ≠ y)
  | [] => .isTrue List.Pairwise.nil
  | x :: xs => by
    have ih := decPairwiseKeys xs
    exact decidable_of_iff _ List.pairwise_cons.symm

instance (l : List Commission) : Decidable (RegUnique l) := by
  unfold RegUnique; exact decPairwiseKeys _

theorem regUnique_append_of_not_found {l : List Commission} {c : Commission}
    (h : RegUnique l) (hnew : ∀ a ∈ l, regKey a = none ∨ regKey a ≠ regKey c) :
    RegUnique (l ++ [c]) := by
  unfold RegUnique at *
  rw [List.map_append, List.pairwise_append]
  refine ⟨h, List.pairwise_singleton _ _, ?_⟩
  intro x hx y hy
  simp only [List.map_cons, List.map_nil, List.mem_singleton] at hy
  obtain ⟨a, ha, rfl⟩ := List.mem_map.mp hx
  subst hy
  exact hnew a ha

theorem regUnique_append_survey {l : List Commission} {c : Commission}
    (h : RegUnique l) (hc : regKey c = none) : RegUnique (l ++ [c]) := by
  refine regUnique_append_of_not_found h fun a _ => ?_
  by_cases hk : regKey a = none
  · exact Or.inl hk
  · exact Or.inr (by rw [hc]; exact hk)

/-- Overwriting a row with one of the same `regKey` leaves the mapped key
list unchanged. -/
theorem map_regKey_set {l : List Commission} {i : Nat} {c c1 : Commission}
    (h : l[i]? = some c) (hk : regKey c1 = regKey c) :
    (l.set i c1).map regKey = l.map regKey := by
  induction l generalizing i with
  | nil => simp
  | cons x xs ih =>
    cases i with
    | zero =>
      simp only [List.getElem?_cons_zero, Option.some.injEq] at h
      subst h
      simp [hk]
    | succ n =>
      simp only [List.getElem?_cons_succ] at h
      simp [ih h]

theorem regUnique_set {l : List Commission} {i : Nat} {c c1 : Commission}
    (hu : RegUnique l) (h : l[i]? = some c) (hk : regKey c1 = regKey c) :
    RegUnique (l.set i c1) := by
  unfold RegUnique at *
  rwa [map_regKey_set h hk]

theorem isRegCommissionFor_false_key {r uid : Nat} {a : Commission}
    (h : ¬ ReferralService.isRegCommissionFor r uid a = true) :
    regKey a = none ∨ regKey a ≠ some (r, uid) := by
  by_cases ht : a.commission_type = .registration
  · right
    unfold regKey
    rw [if_pos ht]
    intro hcontra
    simp only [Option.some.injEq, Prod.mk.injEq] at hcontra
    exact h (by simp [ReferralService.isRegCommissionFor, hcontra.1, hcontra.2, ht])
  · left
    unfold regKey
    rw [if_neg ht]

theorem create_registration_commission_regUnique (s : St) (uid : Nat)
    (h : RegUnique s.commissions) :
    RegUnique (ReferralService.create_registration_commission s uid).2.commissions := by
  simp only [ReferralService.create_registration_commission]
  cases href : (s.users uid).referred_by with
  | none => exact h
  | some r =>
    simp only []
    split
    · exact h
    · cases hfind : s.commissions.find? (ReferralService.isRegCommissionFor r uid) with
      | some existing => simp only [hfind]; exact h
      | none =>
        simp only [hfind]
        refine regUnique_append_of_not_found h fun a ha => ?_
        exact isRegCommissionFor_false_key (List.find?_eq_none.mp hfind a ha)

theorem create_survey_commission_regUnique (s : St) (uid : Nat) (payout : ℚ)
    (h : RegUnique s.commissions) :
    RegUnique (ReferralService.create_survey_commission s uid payout).2.commissions := by
  simp only [ReferralService.create_survey_commission]
  cases href : (s.users uid).referred_by with
  | none => exact h
  | some r =>
    simp only []
    split
    · exact h
    · exact regUnique_append_survey h (by simp [regKey])

theorem settle_one_regUnique (s : St) (i : Nat)
    (h : RegUnique s.commissions) :
    RegUnique (ReferralService.settle_one s i).commissions := by
  unfold ReferralService.settle_one
  cases hc : s.commissions[i]? with
  | none => exact h
  | some c =>
    simp only [hc]
    exact regUnique_set h hc rfl

theorem reverse_one_regUnique (s : St) (i : Nat)
    (h : RegUnique s.commissions) :
    RegUnique (ReferralService.reverse_one s i).commissions := by
  unfold ReferralService.reverse_one
  cases hc : s.commissions[i]? with
  | none => exact h
  | some c =>
    simp only [hc]
    exact regUnique_set h hc rfl

theorem settle_foldl_regUnique (l : List Nat) :
    ∀ (p : (Nat × ℚ) × St), RegUnique p.2.commissions →
      RegUnique ((l.foldl
        (fun acc i =>
          match acc.2.commissions[i]? with
          | some c => ((acc.1.1 + 1, acc.1.2 + c.commission_amount),
                        ReferralService.settle_one acc.2 i)
          | none => acc)
        p).2.commissions) := by
  induction l with
  | nil => intro p h; exact h
  | cons i t ih =>
    intro p h
    simp only [List.foldl_cons]
    cases hc : p.2.commissions[i]? with
    | none => exact ih p h
    | some c =>
      exact ih ((p.1.1 + 1, p.1.2 + c.commission_amount), ReferralService.settle_one p.2 i)
        (settle_one_regUnique p.2 i h)

theorem process_pending_commissions_regUnique (s : St) (ref : Option Nat)
    (h : RegUnique s.commissions) :
    RegUnique (ReferralService.process_pending_commissions s ref).2.commissions := by
  unfold ReferralService.process_pending_commissions
  exact settle_foldl_regUnique _ ((0, 0), s) h

theorem reverse_foldl_regUnique (l : List Nat) :
    ∀ (p : ℚ × St), RegUnique p.2.commissions →
      RegUnique ((l.foldl
        (fun acc i =>
          match acc.2.commissions[i]? with
          | some c => (acc.1 + c.commission_amount, ReferralService.reverse_one acc.2 i)
          | none => acc)
        p).2.commissions) := by
  induction l with
  | nil => intro p h; exact h
  | cons i t ih =>
    intro p h
    simp only [List.foldl_cons]
    cases hc : p.2.commissions[i]? with
    | none => exact ih p h
    | some c =>
      exact ih (p.1 + c.commission_amount, ReferralService.reverse_one p.2 i)
        (reverse_one_regUnique p.2 i h)

theorem reverse_admin_commissions_regUnique (s : St) (dry : Bool)
    (h : RegUnique s.commissions) :
    RegUnique (ReferralService.reverse_admin_commissions s dry).2.commissions := by
  unfold ReferralService.reverse_admin_commissions
  cases dry with
  | true => exact h
  | false =>
    simp only [Bool.false_eq_true, if_false]
    exact reverse_foldl_regUnique _ (0, s) h

theorem complete_reg_txn_commissions (s : St) (uid : Nat) (cid : String)
    (ra : ℚ) : (complete_reg_txn s uid cid ra).commissions = s.commissions := by
  simp only [complete_reg_txn]
  repeat' split
  all_goals rfl

theorem create_withdrawal_request_commissions (s : St) (uid : Nat) (a : ℚ) :
    ((WithdrawalService.create_withdrawal_request s uid a).toOption.getD s).commissions
      = s.commissions := by
  simp only [WithdrawalService.create_withdrawal_request]
  repeat' split
  all_goals rfl

theorem approve_withdrawal_commissions (s : St) (wid : Nat) :
    ((WithdrawalService.approve_withdrawal s wid).toOption.getD s).commissions
      = s.commissions := by
  simp only [WithdrawalService.approve_withdrawal]
  cases s.withdrawals wid
  · rfl
  · repeat' split
    all_goals rfl

theorem reject_withdrawal_commissions (s : St) (wid : Nat) :
    ((WithdrawalService.reject_withdrawal s wid).toOption.getD s).commissions
      = s.commissions := by
  simp only [WithdrawalService.reject_withdrawal]
  cases s.withdrawals wid
  · rfl
  · repeat' split
    all_goals rfl

theorem mark_as_processing_commissions (s : St) (wid : Nat) :
    ((WithdrawalService.mark_as_processing s wid).toOption.getD s).commissions
      = s.commissions := by
  simp only [WithdrawalService.mark_as_processing]
  cases s.withdrawals wid
  · rfl
  · repeat' split
    all_goals rfl

theorem complete_withdrawal_commissions (s : St) (wid : Nat) :
    ((WithdrawalService.complete_withdrawal s wid).toOption.getD s).commissions
      = s.commissions := by
  simp only [WithdrawalService.complete_withdrawal]
  cases s.withdrawals wid
  · rfl
  · repeat' split
    all_goals rfl

theorem fail_withdrawal_commissions (s : St) (wid : Nat) :
    ((WithdrawalService.fail_withdrawal s wid).toOption.getD s).commissions
      = s.commissions := by
  simp only [WithdrawalService.fail_withdrawal]
  cases s.withdrawals wid
  · rfl
  · repeat' split
    all_goals rfl

theorem mpesa_callback_failure_commissions (s : St) (uid : Nat) (cid : String) :
    (mpesa_callback_failure s uid cid).commissions = s.commissions := by
  simp only [mpesa_callback_failure]
  split
  · rfl
  · rfl

/-- The commission block at the end of the success branch, parameterised
over the state it starts from, preserves registration-commission
uniqueness. -/
theorem commission_block_regUnique (s2 : St) (r uid : Nat) (auto : Bool)
    (h2 : RegUnique s2.commissions) :
    RegUnique (if (s2.users r).is_staff || (s2.users r).is_superuser then s2
      else
        match s2.commissions.find? (ReferralService.isRegCommissionFor r uid) with
        | some _ => s2
        | none =>
          match (ReferralService.create_registration_commission s2 uid).1 with
          | some _ =>
            if auto then
              (ReferralService.process_pending_commissions
                (ReferralService.create_registration_commission s2 uid).2 (some r)).2
            else (ReferralService.create_registration_commission s2 uid).2
          | none => (ReferralService.create_registration_commission s2 uid).2).commissions := by
  split
  · exact h2
  · repeat' split
    all_goals first
      | exact h2
      | exact create_registration_commission_regUnique s2 uid h2
      | exact process_pending_commissions_regUnique _ _
          (create_registration_commission_regUnique s2 uid h2)

theorem mpesa_callback_success_regUnique (s : St) (uid : Nat) (cid : String)
    (amt : Option ℚ) (h : RegUnique s.commissions) :
    RegUnique (mpesa_callback_success s uid cid amt).commissions := by
  simp only [mpesa_callback_success]
  cases href : (s.users uid).referred_by with
  | none =>
    rw [complete_reg_txn_commissions]
    exact h
  | some r =>
    apply commission_block_regUnique
    rw [complete_reg_txn_commissions]
    exact h

theorem mpesa_callback_regUnique (s : St) (p : Payload)
    (h : RegUnique s.commissions) :
    RegUnique (mpesa_callback s p).2.commissions := by
  unfold mpesa_callback
  repeat' split
  all_goals first
    | exact h
    | exact mpesa_callback_success_regUnique s _ _ _ h
    | (rw [mpesa_callback_failure_commissions]; exact h)

theorem regUnique_applyOp (s : St) (op : Op)
    (h : RegUnique s.commissions) : RegUnique (applyOp s op).commissions := by
  cases op with
  | createWithdrawal uid a =>
    show RegUnique ((WithdrawalService.create_withdrawal_request s uid a).toOption.getD s).commissions
    rw [create_withdrawal_request_commissions]; exact h
  | approveWithdrawal wid =>
    show RegUnique ((WithdrawalService.approve_withdrawal s wid).toOption.getD s).commissions
    rw [approve_withdrawal_commissions]; exact h
  | rejectWithdrawal wid =>
    show RegUnique ((WithdrawalService.reject_withdrawal s wid).toOption.getD s).commissions
    rw [reject_withdrawal_commissions]; exact h
  | markProcessing wid =>
    show RegUnique ((WithdrawalService.mark_as_processing s wid).toOption.getD s).commissions
    rw [mark_as_processing_commissions]; exact h
  | completeWithdrawal wid =>
    show RegUnique ((WithdrawalService.complete_withdrawal s wid).toOption.getD s).commissions
    rw [complete_withdrawal_commissions]; exact h
  | failWithdrawal wid =>
    show RegUnique ((WithdrawalService.fail_withdrawal s wid).toOption.getD s).commissions
    rw [fail_withdrawal_commissions]; exact h
  | createRegCommission uid => exact create_registration_commission_regUnique s uid h
  | createSurveyCommission uid payout => exact create_survey_commission_regUnique s uid payout h
  | settleCommissions ref => exact process_pending_commissions_regUnique s ref h
  | reverseAdminCommissions dry => exact reverse_admin_commissions_regUnique s dry h
  | callback p => exact mpesa_callback_regUnique s p h

/-- C5: for every (referrer, referred-account) pair at most one
registration-kind Commission ever exists: the uniqueness invariant is
preserved by every operation of the subsystem — in particular by arbitrarily
many deliveries of the registration callback and invocations of the
commission-creation operation. -/
theorem registration_commission_exclusive (s : St) (ops : List Op)
    (h : RegUnique s.commissions) : RegUnique (applyOps s ops).commissions := by
  unfold applyOps
  induction ops generalizing s with
  | nil => exact h
  | cons op t ih => exact ih _ (regUnique_applyOp s op h)

/-! ## No-negative-balance invariant (claim C3) -/

/-- State well-formedness the debit/credit operations maintain: all
balances, stored commission amounts, stored withdrawal amounts, stored
registration amounts and the two monetary settings are nonnegative. -/
def NonnegState (s : St) : Prop :=
  (∀ i, 0 ≤ (s.users i).balance) ∧
  (∀ c ∈ s.commissions, 0 ≤ c.commission_amount) ∧
  (∀ i w, s.withdrawals i = some w → 0 ≤ w.amount) ∧
  (∀ i, 0 ≤ (s.users i).registration_amount) ∧
  0 ≤ s.registration_fee ∧ 0 ≤ s.commission_rate

/-- The operations claim C3 ranges over, minus the admin commission
reversal; survey-commission creation carries the nonnegative payout its
caller (a completed survey's payout) supplies. -/
def C3Op : Op → Prop
  | .createWithdrawal _ _ => True
  | .approveWithdrawal _ => True
  | .failWithdrawal _ => True
  | .createRegCommission _ => True
  | .createSurveyCommission _ payout => 0 ≤ payout
  | .settleCommissions _ => True
  | _ => False

@[simp] theorem St.setUser_users_apply (s : St) (i : Nat) (u : UserAccount) (j : Nat) :
    (s.setUser i u).users j = if j = i then u else s.users j := rfl

@[simp] theorem St.setUser_user_ids (s : St) (i : Nat) (u : UserAccount) :
    (s.setUser i u).user_ids = s.user_ids := rfl

@[simp] theorem St.setUser_txns (s : St) (i : Nat) (u : UserAccount) :
    (s.setUser i u).txns = s.txns := rfl

@[simp] theorem St.setUser_commissions (s : St) (i : Nat) (u : UserAccount) :
    (s.setUser i u).commissions = s.commissions := rfl

@[simp] theorem St.setUser_withdrawals (s : St) (i : Nat) (u : UserAccount) :
    (s.setUser i u).withdrawals = s.withdrawals := rfl

@[simp] theorem St.setWithdrawal_users (s : St) (i : Nat) (w : Withdrawal) :
    (s.setWithdrawal i w).users = s.users := rfl

@[simp] theorem St.setWithdrawal_txns (s : St) (i : Nat) (w : Withdrawal) :
    (s.setWithdrawal i w).txns = s.txns := rfl

@[simp] theorem St.setWithdrawal_commissions (s : St) (i : Nat) (w : Withdrawal) :
    (s.setWithdrawal i w).commissions = s.commissions := rfl

@[simp] theorem St.setWithdrawal_withdrawals_apply (s : St) (i : Nat) (w : Withdrawal)
    (j : Nat) :
    (s.setWithdrawal i w).withdrawals j = if j = i then some w else s.withdrawals j := rfl

@[simp] theorem ok_getD (e : St) (s : St) :
    ((Except.ok e : Except String St)).toOption.getD s = e := rfl

theorem create_withdrawal_request_nonneg (s : St) (uid : Nat) (a : ℚ)
    (h : NonnegState s) :
    NonnegState ((WithdrawalService.create_withdrawal_request s uid a).toOption.getD s) := by
  obtain ⟨h1, h2, h3, h4, h5, h6⟩ := h
  cases hE : WithdrawalService.create_withdrawal_request s uid a with
  | error e => exact ⟨h1, h2, h3, h4, h5, h6⟩
  | ok s1 =>
    simp only [WithdrawalService.create_withdrawal_request] at hE
    split at hE
    · exact absurd hE (by simp)
    · split at hE
      · exact absurd hE (by simp)
      · split at hE
        · exact absurd hE (by simp)
        · split at hE
          · exact absurd hE (by simp)
          · rename_i hmin hmax hbal hfee
            injection hE with hE
            subst hE
            rw [ok_getD]
            have h30 : (30 : ℚ) ≤ a := by
              simpa [WithdrawalService.MIN_WITHDRAWAL] using not_lt.mp hmin
            refine ⟨h1, h2, ?_, h4, h5, h6⟩
            intro i w hw
            by_cases hi : i = s.next_wid
            · subst hi
              simp at hw
              subst hw
              show (0 : ℚ) ≤ a
              linarith
            · simp [hi] at hw
              exact h3 i w hw

theorem approve_withdrawal_nonneg (s : St) (wid : Nat)
    (h : NonnegState s) :
    NonnegState ((WithdrawalService.approve_withdrawal s wid).toOption.getD s) := by
  obtain ⟨h1, h2, h3, h4, h5, h6⟩ := h
  cases hE : WithdrawalService.approve_withdrawal s wid with
  | error e => exact ⟨h1, h2, h3, h4, h5, h6⟩
  | ok s1 =>
    simp only [WithdrawalService.approve_withdrawal] at hE
    split at hE
    · exact absurd hE (by simp)
    · rename_i w hw
      split at hE
      · exact absurd hE (by simp)
      · split at hE
        · exact absurd hE (by simp)
        · rename_i hst hcan
          injection hE with hE
          subst hE
          rw [ok_getD]
          have hge : w.amount ≤ (s.users w.user).balance := by
            have := not_not.mp hcan
            simpa [WithdrawalService.can_be_processed] using this
          refine ⟨?_, h2, ?_, ?_, h5, h6⟩
          · intro i
            by_cases hi : i = w.user
            · subst hi
              simp
              linarith [h1 w.user]
            · simp [hi]
              exact h1 i
          · intro i w1 hw1
            simp only [St.setWithdrawal_withdrawals_apply, St.setUser_withdrawals] at hw1
            by_cases hi : i = wid
            · rw [if_pos hi, Option.some.injEq] at hw1
              subst hw1
              show 0 ≤ w.amount
              exact h3 wid w hw
            · rw [if_neg hi] at hw1
              exact h3 i w1 hw1
          · intro i
            by_cases hi : i = w.user
            · subst hi
              simp
              exact h4 w.user
            · simp [hi]
              exact h4 i

theorem fail_withdrawal_nonneg (s : St) (wid : Nat)
    (h : NonnegState s) :
    NonnegState ((WithdrawalService.fail_withdrawal s wid).toOption.getD s) := by
  obtain ⟨h1, h2, h3, h4, h5, h6⟩ := h
  cases hE : WithdrawalService.fail_withdrawal s wid with
  | error e => exact ⟨h1, h2, h3, h4, h5, h6⟩
  | ok s1 =>
    simp only [WithdrawalService.fail_withdrawal] at hE
    split at hE
    · exact absurd hE (by simp)
    · rename_i w hw
      split at hE
      · exact absurd hE (by simp)
      · injection hE with hE
        subst hE
        rw [ok_getD]
        have hamt : 0 ≤ w.amount := h3 wid w hw
        refine ⟨?_, h2, ?_, ?_, h5, h6⟩
        · intro i
          by_cases hi : i = w.user
          · subst hi
            simp
            linarith [h1 w.user]
          · simp [hi]
            exact h1 i
        · intro i w1 hw1
          simp only [St.setWithdrawal_withdrawals_apply, St.setUser_withdrawals] at hw1
          by_cases hi : i = wid
          · rw [if_pos hi, Option.some.injEq] at hw1
            subst hw1
            show 0 ≤ w.amount
            exact hamt
          · rw [if_neg hi] at hw1
            exact h3 i w1 hw1
        · intro i
          by_cases hi : i = w.user
          · subst hi
            simp
            exact h4 w.user
          · simp [hi]
            exact h4 i

theorem create_registration_commission_nonneg (s : St) (uid : Nat)
    (h : NonnegState s) :
    NonnegState (ReferralService.create_registration_commission s uid).2 := by
  obtain ⟨h1, h2, h3, h4, h5, h6⟩ := h
  simp only [ReferralService.create_registration_commission]
  cases href : (s.users uid).referred_by with
  | none => exact ⟨h1, h2, h3, h4, h5, h6⟩
  | some r =>
    simp only []
    split
    · exact ⟨h1, h2, h3, h4, h5, h6⟩
    · cases hfind : s.commissions.find? (ReferralService.isRegCommissionFor r uid) with
      | some e => simp only [hfind]; exact ⟨h1, h2, h3, h4, h5, h6⟩
      | none =>
        simp only [hfind]
        have hamt : 0 ≤ (if (s.users uid).registration_amount = 0 then
            s.registration_fee else (s.users uid).registration_amount) * s.commission_rate := by
          apply mul_nonneg _ h6
          split
          · exact h5
          · exact h4 uid
        refine ⟨?_, ?_, h3, ?_, h5, h6⟩
        · intro i
          by_cases hi : i = r
          · subst hi
            simp
            exact h1 i
          · simp [hi]
            exact h1 i
        · intro c hc
          simp only [St.setUser_commissions] at hc
          rcases List.mem_append.mp hc with hc1 | hc1
          · exact h2 c hc1
          · rw [List.mem_singleton] at hc1
            subst hc1
            exact hamt
        · intro i
          by_cases hi : i = r
          · subst hi
            simp
            exact h4 i
          · simp [hi]
            exact h4 i

theorem create_survey_commission_nonneg (s : St) (uid : Nat) (payout : ℚ)
    (hp : 0 ≤ payout) (h : NonnegState s) :
    NonnegState (ReferralService.create_survey_commission s uid payout).2 := by
  obtain ⟨h1, h2, h3, h4, h5, h6⟩ := h
  simp only [ReferralService.create_survey_commission]
  cases href : (s.users uid).referred_by with
  | none => exact ⟨h1, h2, h3, h4, h5, h6⟩
  | some r =>
    simp only []
    split
    · exact ⟨h1, h2, h3, h4, h5, h6⟩
    · refine ⟨?_, ?_, h3, ?_, h5, h6⟩
      · intro i
        by_cases hi : i = r
        · subst hi
          simp
          exact h1 i
        · simp [hi]
          exact h1 i
      · intro c hc
        simp only [St.setUser_commissions] at hc
        rcases List.mem_append.mp hc with hc1 | hc1
        · exact h2 c hc1
        · rw [List.mem_singleton] at hc1
          subst hc1
          exact mul_nonneg hp h6
      · intro i
        by_cases hi : i = r
        · subst hi
          simp
          exact h4 i
        · simp [hi]
          exact h4 i

theorem settle_one_nonneg (s : St) (i : Nat) (h : NonnegState s) :
    NonnegState (ReferralService.settle_one s i) := by
  obtain ⟨h1, h2, h3, h4, h5, h6⟩ := h
  unfold ReferralService.settle_one
  cases hc : s.commissions[i]? with
  | none => exact ⟨h1, h2, h3, h4, h5, h6⟩
  | some c =>
    simp only [hc]
    have hcm : 0 ≤ c.commission_amount := h2 c (List.getElem?_mem hc)
    refine ⟨?_, ?_, h3, ?_, h5, h6⟩
    · intro j
      by_cases hj : j = c.referrer
      · subst hj
        simp
        linarith [h1 c.referrer]
      · simp [hj]
        exact h1 j
    · intro c1 hc1
      simp only [St.setUser_commissions] at hc1
      rcases List.mem_or_eq_of_mem_set hc1 with hm | hm
      · exact h2 c1 hm
      · subst hm
        exact hcm
    · intro j
      by_cases hj : j = c.referrer
      · subst hj
        simp
        exact h4 c.referrer
      · simp [hj]
        exact h4 j

theorem settle_foldl_nonneg (l : List Nat) :
    ∀ (p : (Nat × ℚ) × St), NonnegState p.2 →
      NonnegState (l.foldl
        (fun acc i =>
          match acc.2.commissions[i]? with
          | some c => ((acc.1.1 + 1, acc.1.2 + c.commission_amount),
                        ReferralService.settle_one acc.2 i)
          | none => acc)
        p).2 := by
  induction l with
  | nil => intro p h; exact h
  | cons i t ih =>
    intro p h
    simp only [List.foldl_cons]
    cases hc : p.2.commissions[i]? with
    | none => exact ih p h
    | some c =>
      exact ih ((p.1.1 + 1, p.1.2 + c.commission_amount), ReferralService.settle_one p.2 i)
        (settle_one_nonneg p.2 i h)

theorem process_pending_commissions_nonneg (s : St) (ref : Option Nat)
    (h : NonnegState s) :
    NonnegState (ReferralService.process_pending_commissions s ref).2 := by
  unfold ReferralService.process_pending_commissions
  exact settle_foldl_nonneg _ ((0, 0), s) h

theorem applyOp_nonneg (s : St) (op : Op) (hop : C3Op op) (h : NonnegState s) :
    NonnegState (applyOp s op) := by
  cases op with
  | createWithdrawal uid a => exact create_withdrawal_request_nonneg s uid a h
  | approveWithdrawal wid => exact approve_withdrawal_nonneg s wid h
  | failWithdrawal wid => exact fail_withdrawal_nonneg s wid h
  | createRegCommission uid => exact create_registration_commission_nonneg s uid h
  | createSurveyCommission uid payout =>
    exact create_survey_commission_nonneg s uid payout hop h
  | settleCommissions ref => exact process_pending_commissions_nonneg s ref h
  | rejectWithdrawal wid => exact hop.elim
  | markProcessing wid => exact hop.elim
  | completeWithdrawal wid => exact hop.elim
  | reverseAdminCommissions dry => exact hop.elim
  | callback p => exact hop.elim

theorem applyOps_nonneg (ops : List Op) :
    ∀ s, NonnegState s → (∀ op ∈ ops, C3Op op) → NonnegState (applyOps s ops) := by
  induction ops with
  | nil => intro s h _; exact h
  | cons op t ih =>
    intro s h hops
    exact ih _ (applyOp_nonneg s op (hops op (List.mem_cons_self op t)) h)
      (fun o ho => hops o (List.mem_cons_of_mem op ho))

/-- C3 (amended): no sequence of the subsystem's operations other than the
admin commission reversal — withdrawal create/approve/fail, commission
creation (with the nonnegative payouts its callers supply) and commission
settlement — can drive any account's balance below zero, and a withdrawal
approval whose debit would make the balance negative is rejected with an
error and no effect. -/
theorem no_negative_balance_amended :
    (∀ (s : St) (ops : List Op), NonnegState s → (∀ op ∈ ops, C3Op op) →
      ∀ i, 0 ≤ ((applyOps s ops).users i).balance)
    ∧ (∀ (s : St) (wid : Nat) (w : Withdrawal), s.withdrawals wid = some w →
        w.status = WStatus.pending → (s.users w.user).balance < w.amount →
        WithdrawalService.approve_withdrawal s wid =
          Except.error "Withdrawal cannot be processed - insufficient balance") := by
  constructor
  · intro s ops hs hops i
    exact (applyOps_nonneg ops s hs hops).1 i
  · intro s wid w hw hst hbal
    simp only [WithdrawalService.approve_withdrawal, hw]
    rw [if_neg (not_not_intro hst)]
    rw [if_pos (by
      simp only [WithdrawalService.can_be_processed]
      exact not_le.mpr hbal)]

/-- Baseline user row: zero balances, not staff, no referrer, the model's
default registration amount 500, no checkout id. -/
def U0 : UserAccount :=
  { balance := 0, total_earnings := 0, referral_earnings := 0,
    registration_paid := false, is_active := false, is_staff := false,
    is_superuser := false, referred_by := none, registration_amount := 500,
    mpesa_checkout_request_id := none }

def W3St : St :=
  { users := fun _ => { U0 with balance := 100 }, user_ids := [1], txns := [],
    commissions := [], withdrawals := fun _ => none, next_wid := 0,
    registration_fee := 500, commission_rate := 1 / 10, auto_approve := true }

theorem W3St_nonneg : NonnegState W3St :=
  ⟨fun _ => by norm_num [W3St, U0], fun c hc => absurd hc (List.not_mem_nil c),
   fun _ w hw => Option.noConfusion hw, fun _ => by norm_num [W3St, U0],
   by norm_num [W3St], by norm_num [W3St]⟩

def W3Stb : St :=
  { users := fun _ => { U0 with balance := 10 }, user_ids := [1], txns := [],
    commissions := [],
    withdrawals := fun j =>
      if j = 0 then
        some { user := 1, amount := 50, withdrawal_fee := 1, net_amount := 49,
               status := WStatus.pending }
      else none,
    next_wid := 1, registration_fee := 500, commission_rate := 1 / 10,
    auto_approve := false }

/-- Witness for C3 (amended): a concrete create/approve/fail run keeps all
balances nonnegative, and an approval attempt against a balance of 10 for a
withdrawal of 50 is rejected with the insufficient-balance error. -/
theorem no_negative_balance_amended_witness :
    (∀ i, 0 ≤ ((applyOps W3St
      [Op.createWithdrawal 1 50, Op.approveWithdrawal 0, Op.failWithdrawal 0]).users i).balance)
    ∧ WithdrawalService.approve_withdrawal W3Stb 0 =
        Except.error "Withdrawal cannot be processed - insufficient balance" := by
  constructor
  · refine no_negative_balance_amended.1 W3St _ W3St_nonneg ?_
    intro op hop
    simp only [List.mem_cons, List.not_mem_nil, or_false] at hop
    rcases hop with rfl | rfl | rfl <;> trivial
  · exact no_negative_balance_amended.2 W3Stb 0
      { user := 1, amount := 50, withdrawal_fee := 1, net_amount := 49,
        status := WStatus.pending } rfl rfl (by norm_num [W3Stb, U0])

def C3negSt : St :=
  { users := fun i => if i = 2 then { U0 with balance := 50, is_staff := true } else U0,
    user_ids := [2, 3], txns := [],
    commissions := [{ referrer := 2, referred_user := 3, commission_amount := 100,
                      commission_type := CommType.registration, source_amount := 500,
                      processed := true }],
    withdrawals := fun _ => none, next_wid := 0,
    registration_fee := 500, commission_rate := 1 / 5, auto_approve := false }

/-- C3 counterexample: `reverse_admin_commissions` (non-dry-run) debits a
processed commission of 100 from a staff referrer whose balance is only 50,
driving the balance to −50 — the debit is not rejected. -/
theorem reverse_admin_commissions_negative_balance :
    (C3negSt.users 2).balance = 50
    ∧ ((ReferralService.reverse_admin_commissions C3negSt false).2.users 2).balance = -50
    ∧ ¬ 0 ≤ ((ReferralService.reverse_admin_commissions C3negSt false).2.users 2).balance := by
  have hbal : ((ReferralService.reverse_admin_commissions C3negSt false).2.users 2).balance
      = -50 := by
    simp [ReferralService.reverse_admin_commissions, ReferralService.adminProcessedIdxs,
      ReferralService.reverse_one, C3negSt, U0, St.setUser, List.range_succ]
    norm_num
  refine ⟨by norm_num [C3negSt, U0], hbal, by rw [hbal]; norm_num⟩

/-- C6: staff exclusion — when the referrer is staff or superuser, both
commission-creation operations return `None` and leave the entire state
(commission table, referrer earnings and balances) unchanged. -/
theorem staff_referrer_no_commission (s : St) (uid r : Nat)
    (href : (s.users uid).referred_by = some r)
    (hstaff : (s.users r).is_staff = true ∨ (s.users r).is_superuser = true) :
    ReferralService.create_registration_commission s uid = (none, s)
    ∧ ∀ p, ReferralService.create_survey_commission s uid p = (none, s) := by
  constructor
  · simp only [ReferralService.create_registration_commission, href]
    rw [if_pos hstaff]
  · intro p
    simp only [ReferralService.create_survey_commission, href]
    rw [if_pos hstaff]

def W6St : St :=
  { users := fun i => if i = 2 then { U0 with is_staff := true }
      else { U0 with referred_by := some 2 },
    user_ids := [1, 2], txns := [], commissions := [],
    withdrawals := fun _ => none, next_wid := 0,
    registration_fee := 500, commission_rate := 1 / 10, auto_approve := true }

/-- Witness for C6 at a concrete state whose user 1 is referred by the
staff user 2. -/
theorem staff_referrer_no_commission_witness :
    ReferralService.create_registration_commission W6St 1 = (none, W6St)
    ∧ ∀ p, ReferralService.create_survey_commission W6St 1 p = (none, W6St) :=
  staff_referrer_no_commission W6St 1 2 rfl (Or.inl rfl)

/-- Does `pat` occur as a contiguous substring of the second list? -/
def occursIn (pat : List Char) : List Char → Bool
  | [] => pat.isEmpty
  | a :: as => pat.isPrefixOf (a :: as) || occursIn pat as

def C7St : St :=
  { users := fun _ => U0, user_ids := [1], txns := [], commissions := [],
    withdrawals := fun j =>
      if j = 0 then
        some { user := 1, amount := 100, withdrawal_fee := 2, net_amount := 98,
               status := WStatus.completed }
      else none,
    next_wid := 1, registration_fee := 500, commission_rate := 1 / 10,
    auto_approve := false }

/-- C7 counterexample: approving a withdrawal whose current status is
`completed` raises `ValueError("Only pending withdrawals can be approved")`
— a message that does not name the withdrawal's current state
(`"completed"` does not occur in it), so the error does not "name the
current and attempted state" as claimed. -/
theorem invalid_transition_error_lacks_current_state :
    WithdrawalService.approve_withdrawal C7St 0 =
      Except.error "Only pending withdrawals can be approved"
    ∧ occursIn "completed".toList
        "Only pending withdrawals can be approved".toList = false := by
  exact ⟨rfl, by decide⟩

/-- C7 (amended): every invalid withdrawal state transition raises a
`ValueError` naming the attempted transition and the required source state
(though not the withdrawal's current state); none of them silently no-ops
or reports success. -/
theorem invalid_transition_always_errors (s : St) (wid : Nat) (w : Withdrawal)
    (hw : s.withdrawals wid = some w) :
    (w.status ≠ WStatus.pending →
      WithdrawalService.approve_withdrawal s wid =
        Except.error "Only pending withdrawals can be approved")
    ∧ (w.status ≠ WStatus.pending →
      WithdrawalService.reject_withdrawal s wid =
        Except.error "Only pending withdrawals can be rejected")
    ∧ (w.status ≠ WStatus.approved →
      WithdrawalService.mark_as_processing s wid =
        Except.error "Only approved withdrawals can be marked as processing")
    ∧ (w.status ≠ WStatus.approved ∧ w.status ≠ WStatus.processing →
      WithdrawalService.complete_withdrawal s wid =
        Except.error "Only approved or processing withdrawals can be completed")
    ∧ (w.status ≠ WStatus.approved ∧ w.status ≠ WStatus.processing →
      WithdrawalService.fail_withdrawal s wid =
        Except.error "Only approved or processing withdrawals can be failed") := by
  refine ⟨?_, ?_, ?_, ?_, ?_⟩
  · intro h
    simp only [WithdrawalService.approve_withdrawal, hw]
    rw [if_pos h]
  · intro h
    simp only [WithdrawalService.reject_withdrawal, hw]
    rw [if_pos h]
  · intro h
    simp only [WithdrawalService.mark_as_processing, hw]
    rw [if_pos h]
  · intro h
    simp only [WithdrawalService.complete_withdrawal, hw]
    rw [if_pos h]
  · intro h
    simp only [WithdrawalService.fail_withdrawal, hw]
    rw [if_pos h]

/-- Witness for C7 (amended) on a withdrawal whose status is `completed`. -/
theorem invalid_transition_always_errors_witness :
    WithdrawalService.approve_withdrawal C7St 0 =
      Except.error "Only pending withdrawals can be approved"
    ∧ WithdrawalService.reject_withdrawal C7St 0 =
        Except.error "Only pending withdrawals can be rejected"
    ∧ WithdrawalService.mark_as_processing C7St 0 =
        Except.error "Only approved withdrawals can be marked as processing"
    ∧ WithdrawalService.complete_withdrawal C7St 0 =
        Except.error "Only approved or processing withdrawals can be completed"
    ∧ WithdrawalService.fail_withdrawal C7St 0 =
        Except.error "Only approved or processing withdrawals can be failed" :=
  have h := invalid_transition_always_errors C7St 0
    { user := 1, amount := 100, withdrawal_fee := 2, net_amount := 98,
      status := WStatus.completed } rfl
  ⟨h.1 (by decide), h.2.1 (by decide), h.2.2.1 (by decide),
   h.2.2.2.1 ⟨by decide, by decide⟩, h.2.2.2.2 ⟨by decide, by decide⟩⟩

/-- C8: `create_withdrawal_request` fails exactly when the amount is below
the configured minimum, above the configured maximum, or the balance is
less than amount plus fee, with fee = max(2% of amount, the minimum fee);
otherwise it persists a pending request with `net_amount = amount - fee`
and leaves the user rows (in particular the balance), ledger and
commissions unchanged. -/
theorem create_withdrawal_request_spec (s : St) (uid : Nat) (amount : ℚ) :
    ((∃ e, WithdrawalService.create_withdrawal_request s uid amount = Except.error e) ↔
      (amount < WithdrawalService.MIN_WITHDRAWAL
        ∨ amount > WithdrawalService.MAX_WITHDRAWAL
        ∨ (s.users uid).balance < amount +
            max (amount * WithdrawalService.WITHDRAWAL_FEE_PERCENTAGE)
              WithdrawalService.MIN_WITHDRAWAL_FEE))
    ∧ (∀ s1, WithdrawalService.create_withdrawal_request s uid amount = Except.ok s1 →
        s1.withdrawals s.next_wid =
          some { user := uid, amount := amount,
                 withdrawal_fee := max (amount * WithdrawalService.WITHDRAWAL_FEE_PERCENTAGE)
                   WithdrawalService.MIN_WITHDRAWAL_FEE,
                 net_amount := amount - max (amount * WithdrawalService.WITHDRAWAL_FEE_PERCENTAGE)
                   WithdrawalService.MIN_WITHDRAWAL_FEE,
                 status := WStatus.pending }
        ∧ s1.users = s.users ∧ s1.txns = s.txns ∧ s1.commissions = s.commissions) := by
  have hfee : (0 : ℚ) < max (amount * WithdrawalService.WITHDRAWAL_FEE_PERCENTAGE)
      WithdrawalService.MIN_WITHDRAWAL_FEE :=
    lt_of_lt_of_le (by norm_num [WithdrawalService.MIN_WITHDRAWAL_FEE]) (le_max_right _ _)
  constructor
  · constructor
    · rintro ⟨e, he⟩
      simp only [WithdrawalService.create_withdrawal_request] at he
      split at he
      · exact Or.inl (by assumption)
      · split at he
        · exact Or.inr (Or.inl (by assumption))
        · split at he
          · rename_i hbal
            refine Or.inr (Or.inr ?_)
            calc (s.users uid).balance < amount := hbal
              _ ≤ amount + _ := le_add_of_nonneg_right (le_of_lt hfee)
          · split at he
            · exact Or.inr (Or.inr (by assumption))
            · exact absurd he (by simp)
    · intro hcond
      simp only [WithdrawalService.create_withdrawal_request]
      split
      · exact ⟨_, rfl⟩
      · split
        · exact ⟨_, rfl⟩
        · split
          · exact ⟨_, rfl⟩
          · split
            · exact ⟨_, rfl⟩
            · rename_i h1 h2 h3 h4
              exfalso
              rcases hcond with hc | hc | hc
              · exact h1 hc
              · exact h2 hc
              · exact h4 hc
  · intro s1 hok
    simp only [WithdrawalService.create_withdrawal_request] at hok
    split at hok
    · exact absurd hok (by simp)
    · split at hok
      · exact absurd hok (by simp)
      · split at hok
        · exact absurd hok (by simp)
        · split at hok
          · exact absurd hok (by simp)
          · injection hok with hok
            subst hok
            refine ⟨by simp, rfl, rfl, rfl⟩

def W8St : St :=
  { users := fun _ => { U0 with balance := 1000 }, user_ids := [1], txns := [],
    commissions := [], withdrawals := fun _ => none, next_wid := 0,
    registration_fee := 500, commission_rate := 1 / 10, auto_approve := false }

/-- Witness for C8: at balance 1000 a withdrawal request of 100 succeeds
and persists a pending request with fee 2 and net amount 98. -/
theorem create_withdrawal_request_spec_witness :
    ∃ s1, WithdrawalService.create_withdrawal_request W8St 1 100 = Except.ok s1
      ∧ s1.withdrawals W8St.next_wid =
        some { user := 1, amount := 100, withdrawal_fee := 2, net_amount := 98,
               status := WStatus.pending }
      ∧ s1.users = W8St.users := by
  cases hE : WithdrawalService.create_withdrawal_request W8St 1 100 with
  | error e =>
    exfalso
    have hc := (create_withdrawal_request_spec W8St 1 100).1.mp ⟨e, hE⟩
    rcases hc with hc | hc | hc
    · exact absurd hc (by norm_num [WithdrawalService.MIN_WITHDRAWAL])
    · exact absurd hc (by norm_num [WithdrawalService.MAX_WITHDRAWAL])
    · exact absurd hc (by
        norm_num [W8St, U0, WithdrawalService.WITHDRAWAL_FEE_PERCENTAGE,
          WithdrawalService.MIN_WITHDRAWAL_FEE])
  | ok s1 =>
    obtain ⟨hwd, hus, _, _⟩ := (create_withdrawal_request_spec W8St 1 100).2 s1 hE
    refine ⟨s1, rfl, ?_, hus⟩
    rw [hwd]
    norm_num [WithdrawalService.WITHDRAWAL_FEE_PERCENTAGE,
      WithdrawalService.MIN_WITHDRAWAL_FEE]

def W9St : St :=
  { users := fun _ => U0, user_ids := [1], txns := [], commissions := [],
    withdrawals := fun _ => none, next_wid := 0,
    registration_fee := 500, commission_rate := 1 / 10, auto_approve := false }

/-- C9 counterexample: a payload missing the correlation id
(CheckoutRequestID) is answered with body `ResultCode = 1` ("Missing
CheckoutRequestID") — a protocol-level rejection, not an accepted/success
response — and malformed JSON likewise gets `ResultCode = 1`. -/
theorem missing_checkout_id_not_acknowledged :
    mpesa_callback W9St (Payload.parsed none none none) =
      ({ http_status := 200, result_code := 1,
         result_desc := "Missing CheckoutRequestID" }, W9St)
    ∧ mpesa_callback W9St Payload.malformed =
      ({ http_status := 200, result_code := 1, result_desc := "Invalid JSON" }, W9St)
    ∧ (1 : Int) ≠ 0 :=
  ⟨rfl, rfl, by decide⟩

/-- C9 (amended): the callback handler always answers with an HTTP 200
`JsonResponse`; malformed JSON and missing-correlation-id payloads get body
`ResultCode = 1` with no state change, and a correlation id matching no
user row gets `ResultCode = 0` ("Accepted") with no state change. -/
theorem mpesa_callback_response_spec (s : St) (p : Payload) :
    (mpesa_callback s p).1.http_status = 200
    ∧ (p = Payload.malformed →
        mpesa_callback s p =
          ({ http_status := 200, result_code := 1, result_desc := "Invalid JSON" }, s))
    ∧ (∀ rc amt, p = Payload.parsed none rc amt →
        mpesa_callback s p =
          ({ http_status := 200, result_code := 1,
             result_desc := "Missing CheckoutRequestID" }, s))
    ∧ (∀ cid rc amt, p = Payload.parsed (some cid) rc amt → cid ≠ "" →
        s.user_ids.filter
          (fun i => (s.users i).mpesa_checkout_request_id == some cid) = [] →
        mpesa_callback s p =
          ({ http_status := 200, result_code := 0, result_desc := "Accepted" }, s)) := by
  refine ⟨?_, ?_, ?_, ?_⟩
  · cases p with
    | malformed => rfl
    | parsed cid rc amt =>
      cases cid with
      | none => rfl
      | some c =>
        simp only [mpesa_callback]
        by_cases hc : c = ""
        · rw [if_pos hc]
        · rw [if_neg hc]
          cases hm : s.user_ids.filter
              (fun i => (s.users i).mpesa_checkout_request_id == some c) with
          | nil => rfl
          | cons uid rest =>
            cases rest with
            | nil =>
              show (if rc = some 0 then
                  (({ http_status := 200, result_code := 0,
                      result_desc := "Accepted" } : CallbackResponse),
                    mpesa_callback_success s uid c amt)
                else
                  (({ http_status := 200, result_code := 0,
                      result_desc := "Accepted" } : CallbackResponse),
                    mpesa_callback_failure s uid c)).1.http_status = 200
              split <;> rfl
            | cons u2 rest2 => rfl
  · rintro rfl
    rfl
  · rintro rc amt rfl
    rfl
  · rintro cid rc amt rfl hne hfilter
    simp only [mpesa_callback]
    rw [if_neg hne, hfilter]

/-- Witness for C9 (amended) at a concrete state (one user, no checkout
id): malformed, missing-id and unknown-id payloads all get HTTP 200 with
the respective `ResultCode`, and the state is unchanged. -/
theorem mpesa_callback_response_spec_witness :
    mpesa_callback W9St Payload.malformed =
      ({ http_status := 200, result_code := 1, result_desc := "Invalid JSON" }, W9St)
    ∧ mpesa_callback W9St (Payload.parsed none (some 0) none) =
      ({ http_status := 200, result_code := 1,
         result_desc := "Missing CheckoutRequestID" }, W9St)
    ∧ mpesa_callback W9St (Payload.parsed (some "UNKNOWN") (some 0) none) =
      ({ http_status := 200, result_code := 0, result_desc := "Accepted" }, W9St) :=
  ⟨(mpesa_callback_response_spec W9St Payload.malformed).2.1 rfl,
   (mpesa_callback_response_spec W9St _).2.2.1 (some 0) none rfl,
   (mpesa_callback_response_spec W9St _).2.2.2 "UNKNOWN" (some 0) none rfl
     (by decide) rfl⟩

theorem approve_ok_shape (s : St) (wid : Nat) (w : Withdrawal)
    (hw : s.withdrawals wid = some w)
    (hst : w.status = WStatus.pending)
    (hbal : w.amount ≤ (s.users w.user).balance) :
    ∃ s1, WithdrawalService.approve_withdrawal s wid = Except.ok s1
      ∧ (s1.users w.user).balance = (s.users w.user).balance - w.amount
      ∧ (∀ i, i ≠ w.user → (s1.users i).balance = (s.users i).balance)
      ∧ s1.withdrawals wid = some { w with status := WStatus.approved } := by
  have hnp : ¬ (w.status ≠ WStatus.pending) := not_not_intro hst
  have hcan : ¬ ¬ WithdrawalService.can_be_processed s w :=
    not_not_intro (by simpa [WithdrawalService.can_be_processed] using hbal)
  cases hE : WithdrawalService.approve_withdrawal s wid with
  | error e =>
    exfalso
    have hE2 := hE
    simp only [WithdrawalService.approve_withdrawal, hw] at hE2
    rw [if_neg hnp, if_neg hcan] at hE2
    exact absurd hE2 (by simp)
  | ok s1 =>
    simp only [WithdrawalService.approve_withdrawal, hw] at hE
    rw [if_neg hnp, if_neg hcan] at hE
    injection hE with hE
    subst hE
    refine ⟨_, rfl, ?_, ?_, ?_⟩
    · simp
    · intro i hi
      simp [hi]
    · simp

theorem fail_ok_shape (s : St) (wid : Nat) (w : Withdrawal)
    (hw : s.withdrawals wid = some w)
    (hst : w.status = WStatus.approved ∨ w.status = WStatus.processing) :
    ∃ s2, WithdrawalService.fail_withdrawal s wid = Except.ok s2
      ∧ (s2.users w.user).balance = (s.users w.user).balance + w.amount
      ∧ (∀ i, i ≠ w.user → (s2.users i).balance = (s.users i).balance)
      ∧ s2.withdrawals wid = some { w with status := WStatus.failed } := by
  have hcond : ¬ (w.status ≠ WStatus.approved ∧ w.status ≠ WStatus.processing) := by
    rintro ⟨ha, hp⟩
    rcases hst with h | h
    · exact ha h
    · exact hp h
  cases hE : WithdrawalService.fail_withdrawal s wid with
  | error e =>
    exfalso
    have hE2 := hE
    simp only [WithdrawalService.fail_withdrawal, hw] at hE2
    rw [if_neg hcond] at hE2
    exact absurd hE2 (by simp)
  | ok s2 =>
    simp only [WithdrawalService.fail_withdrawal, hw] at hE
    rw [if_neg hcond] at hE
    injection hE with hE
    subst hE
    refine ⟨_, rfl, ?_, ?_, ?_⟩
    · simp
    · intro i hi
      simp [hi]
    · simp

/-- C4: approving a pending withdrawal (with sufficient balance) debits the
account by the amount exactly once — a second approval attempt errors; if
the disbursement then fails, `fail_withdrawal` credits the amount back
exactly once, restoring the pre-approval balance, and a second failure
report for the same withdrawal raises an error and performs no second
refund.  Other accounts' balances are never touched. -/
theorem withdrawal_reservation_exactly_once (s : St) (wid : Nat) (w : Withdrawal)
    (hw : s.withdrawals wid = some w)
    (hst : w.status = WStatus.pending)
    (hbal : w.amount ≤ (s.users w.user).balance) :
    ∃ s1, WithdrawalService.approve_withdrawal s wid = Except.ok s1
    ∧ (s1.users w.user).balance = (s.users w.user).balance - w.amount
    ∧ (∀ i, i ≠ w.user → (s1.users i).balance = (s.users i).balance)
    ∧ WithdrawalService.approve_withdrawal s1 wid =
        Except.error "Only pending withdrawals can be approved"
    ∧ ∃ s2, WithdrawalService.fail_withdrawal s1 wid = Except.ok s2
      ∧ (s2.users w.user).balance = (s.users w.user).balance
      ∧ (∀ i, i ≠ w.user → (s2.users i).balance = (s.users i).balance)
      ∧ WithdrawalService.fail_withdrawal s2 wid =
          Except.error "Only approved or processing withdrawals can be failed" := by
  obtain ⟨s1, hA, hb1, ho1, hw1⟩ := approve_ok_shape s wid w hw hst hbal
  obtain ⟨s2, hF, hb2, ho2, hw2⟩ :=
    fail_ok_shape s1 wid { w with status := WStatus.approved } hw1 (Or.inl rfl)
  refine ⟨s1, hA, hb1, ho1, ?_, s2, hF, ?_, ?_, ?_⟩
  · simp only [WithdrawalService.approve_withdrawal, hw1]
    rw [if_pos (by simp)]
  · show (s2.users w.user).balance = (s.users w.user).balance
    have : (s2.users w.user).balance = (s1.users w.user).balance + w.amount := hb2
    rw [this, hb1]
    ring
  · intro i hi
    have h2 : (s2.users i).balance = (s1.users i).balance := ho2 i hi
    rw [h2]
    exact ho1 i hi
  · simp only [WithdrawalService.fail_withdrawal, hw2]
    rw [if_pos ⟨by simp, by simp⟩]

def W4St : St :=
  { users := fun _ => { U0 with balance := 100 }, user_ids := [1], txns := [],
    commissions := [],
    withdrawals := fun j =>
      if j = 0 then
        some { user := 1, amount := 50, withdrawal_fee := 1, net_amount := 49,
               status := WStatus.pending }
      else none,
    next_wid := 1, registration_fee := 500, commission_rate := 1 / 10,
    auto_approve := false }

/-- Witness for C4: on a balance of 100 and a pending withdrawal of 50,
approve debits to 50, a second approve errors, fail restores 100, and a
second fail errors. -/
theorem withdrawal_reservation_exactly_once_witness :
    ∃ s1, WithdrawalService.approve_withdrawal W4St 0 = Except.ok s1
    ∧ (s1.users 1).balance = (W4St.users 1).balance - 50
    ∧ (∀ i, i ≠ 1 → (s1.users i).balance = (W4St.users i).balance)
    ∧ WithdrawalService.approve_withdrawal s1 0 =
        Except.error "Only pending withdrawals can be approved"
    ∧ ∃ s2, WithdrawalService.fail_withdrawal s1 0 = Except.ok s2
      ∧ (s2.users 1).balance = (W4St.users 1).balance
      ∧ (∀ i, i ≠ 1 → (s2.users i).balance = (W4St.users i).balance)
      ∧ WithdrawalService.fail_withdrawal s2 0 =
          Except.error "Only approved or processing withdrawals can be failed" :=
  withdrawal_reservation_exactly_once W4St 0
    { user := 1, amount := 50, withdrawal_fee := 1, net_amount := 49,
      status := WStatus.pending } rfl rfl (by norm_num [W4St, U0])

/-! ## Concrete callback and settlement runs (claims C1 and C2) -/

def C1St : St :=
  { users := fun i =>
      if i = 1 then { U0 with mpesa_checkout_request_id := some "CK1" } else U0,
    user_ids := [1],
    txns := [{ user := 1, txnType := TxnType.registration, amount := 500,
               status := TxnStatus.pending, balance_before := 0, balance_after := 0,
               reference_id := some "CK1" }],
    commissions := [], withdrawals := fun _ => none, next_wid := 0,
    registration_fee := 500, commission_rate := 1 / 20, auto_approve := true }

def C1p : Payload := Payload.parsed (some "CK1") (some 0) (some 500)

/-- C1: the registration callback is not idempotent.  On the first
delivery of a successful payload the pending registration transaction is
completed (exactly one completed registration ledger row); on the second
identical delivery the pending-row lookup finds nothing and the fallback
creates a second completed registration transaction, so two completed
registration ledger rows exist for the account. -/
theorem mpesa_callback_second_delivery_duplicates_txn :
    ((mpesa_callback C1St C1p).2.txns.filter
        (fun t => t.user == 1 && t.txnType == TxnType.registration
          && t.status == TxnStatus.completed)).length = 1
    ∧ ((mpesa_callback (mpesa_callback C1St C1p).2 C1p).2.txns.filter
        (fun t => t.user == 1 && t.txnType == TxnType.registration
          && t.status == TxnStatus.completed)).length = 2 := by
  constructor
  · norm_num [mpesa_callback, C1p, C1St, U0, mpesa_callback_success,
      complete_reg_txn, isPendingRegTxn, St.setUser, List.filter]
  · norm_num [mpesa_callback, C1p, C1St, U0, mpesa_callback_success,
      complete_reg_txn, isPendingRegTxn, St.setUser, List.filter]

def C2St : St :=
  { users := fun i => if i = 2 then { U0 with balance := 50 } else U0,
    user_ids := [2, 3], txns := [],
    commissions := [{ referrer := 2, referred_user := 3, commission_amount := 100,
                      commission_type := CommType.registration, source_amount := 500,
                      processed := false }],
    withdrawals := fun _ => none, next_wid := 0,
    registration_fee := 500, commission_rate := 1 / 5, auto_approve := true }

/-- C2: the ledger bookkeeping invariant fails.  Settling a commission of
100 for a referrer whose balance is 50 writes a `referral_commission`
transaction with `balance_before = 0` (the model default — the call site
never passes it) and `balance_after = 150`, so
`balance_after ≠ balance_before + amount`; and the sum of the account's
ledger amounts (100) differs from its balance (150). -/
theorem process_pending_commissions_ledger_mismatch :
    (ReferralService.process_pending_commissions C2St (some 2)).2.txns =
      [{ user := 2, txnType := TxnType.referral_commission, amount := 100,
         status := TxnStatus.pending, balance_before := 0, balance_after := 150,
         reference_id := none }]
    ∧ ¬ ((150 : ℚ) = 0 + 100)
    ∧ ((ReferralService.process_pending_commissions C2St (some 2)).2.users 2).balance = 150
    ∧ ledgerSum (ReferralService.process_pending_commissions C2St (some 2)).2 2 = 100 := by
  refine ⟨?_, by norm_num, ?_, ?_⟩ <;>
    norm_num [ReferralService.process_pending_commissions, ReferralService.pendingIdxs,
      ReferralService.settle_one, C2St, U0, St.setUser, ledgerSum,
      List.range_succ, List.filter]

def W5St : St :=
  { users := fun i =>
      if i = 1 then
        { U0 with mpesa_checkout_request_id := some "CK5", referred_by := some 2 }
      else U0,
    user_ids := [1, 2], txns := [], commissions := [],
    withdrawals := fun _ => none, next_wid := 0,
    registration_fee := 500, commission_rate := 1 / 20, auto_approve := false }

/-- Witness for C5: two deliveries of the same successful registration
callback followed by a direct commission-creation call, starting from an
empty commission table, still satisfy the at-most-one-registration-
commission-per-pair invariant. -/
theorem registration_commission_exclusive_witness :
    RegUnique (applyOps W5St
      [Op.callback (Payload.parsed (some "CK5") (some 0) (some 500)),
       Op.callback (Payload.parsed (some "CK5") (some 0) (some 500)),
       Op.createRegCommission 1]).commissions :=
  registration_commission_exclusive W5St _ (by decide)
